import Mathlib

/-!
Shallow embedding of the ODE stepper library (src/ode.py) and of the Kepler
dynamics and driver (src/kepler.py), together with theorems settling the
specification's claims about them.

Python runtime failures (NameError, TypeError, KeyError, ZeroDivisionError,
...) are modelled with `Except PyErr`; the machine floats of the source are
modelled by exact arithmetic (`ℚ` for the generic stepper library, `ℝ` for the
Kepler dynamics, whose norms and square roots are irrational).  A Python
function that can return `None` is modelled with an `Option` result.
-/

/-- The Python runtime errors the embedded code can raise. -/
inductive PyErr
  | nameError
  | typeError
  | keyError
  | zeroDivisionError
  | valueError
  | indexError
  deriving DecidableEq, Repr

/-- A Python value passed as the `args` parameter of a stepper: either a tuple
of extra arguments or a bare non-tuple value (the driver passes the bare
scalar `m`). -/
inductive ArgsVal (A : Type)
  | tuple (l : List A)
  | bare (a : A)

/-- The normalisation at the top of every stepper in src/ode.py:
`if not isinstance(args, tuple): args = (args,)`. -/
def ArgsVal.normalize {A : Type} : ArgsVal A → List A
  | .tuple l => l
  | .bare a => [a]

@[simp] theorem except_ok_bind {ε α β : Type} (a : α) (k : α → Except ε β) :
    (Except.ok a : Except ε α) >>= k = k a := rfl

@[simp] theorem except_error_bind {ε α β : Type} (e : ε) (k : α → Except ε β) :
    (Except.error e : Except ε α) >>= k = Except.error e := rfl

@[simp] theorem except_pure_eq_ok {ε α : Type} (a : α) :
    (pure a : Except ε α) = Except.ok a := rfl

section Steppers

variable {K : Type} [Field K] {V : Type} [AddCommGroup V] [Module K V] {A : Type}

/-- `fEuler` from src/ode.py: normalises `args` and returns
`z + h*f(t,z,*args)`.  The RHS `f` itself may raise (modelled by its
`Except` result), and that failure propagates. -/
def fEuler (f : K → V → List A → Except PyErr V) (t : K) (z : V) (h : K)
    (args : ArgsVal A) : Except PyErr V := do
  let extra := args.normalize
  let dz ← f t z extra
  return z + h • dz

/-- `rk2` from src/ode.py.  The source computes
`z_p = (z+(h/2)*f(t, z))/(t+(h/2))` — note the division of the state estimate
by the time value, and that `f` is called without the extra arguments — and
then evaluates `f((t+(h/2)), zp)` where the name `zp` was never bound (the
bound name is `z_p`), so every call that survives the first evaluation of `f`
raises `NameError`. -/
def rk2 (f : K → V → List A → Except PyErr V) (t : K) (z : V) (h : K)
    (args : ArgsVal A) : Except PyErr V := do
  let _extra := args.normalize
  let ftz ← f t z []
  let _z_p := (t + h / 2)⁻¹ • (z + (h / 2) • ftz)
  .error .nameError

/-- The value the src/ode.py `rk2` binds to `z_p`: the state estimate divided
by the time value `t + h/2`. -/
def rk2_z_p (f : K → V → List A → Except PyErr V) (t : K) (z : V) (h : K) :
    Except PyErr V := do
  let ftz ← f t z []
  return (t + h / 2)⁻¹ • (z + (h / 2) • ftz)

/-- `rk4` from src/ode.py: computes the four stage values `k1..k4` (calling
`f` without the extra arguments), binds `znew = z + (h/6)*(k1+2*k2+2*k3)` —
the `k4` term is missing from the weighted sum — and then ends with a bare
`return`, so the Python function returns `None`; the `Option` in the result
records exactly that. -/
def rk4 (f : K → V → List A → Except PyErr V) (t : K) (z : V) (h : K)
    (args : ArgsVal A) : Except PyErr (Option V) := do
  let _extra := args.normalize
  let k1 ← f t z []
  let k2 ← f (t + h / 2) (z + (h / 2) • k1) []
  let k3 ← f (t + h / 2) (z + (h / 2) • k2) []
  let _k4 ← f (t + h) (z + h • k3) []
  let _znew := z + (h / 6) • (k1 + (2 : K) • k2 + (2 : K) • k3)
  return none

/-- The value src/ode.py's `rk4` binds to `znew` before its bare `return`:
the weighted sum is missing the `k4` term. -/
def rk4_znew (f : K → V → List A → Except PyErr V) (t : K) (z : V) (h : K) :
    Except PyErr V := do
  let k1 ← f t z []
  let k2 ← f (t + h / 2) (z + (h / 2) • k1) []
  let k3 ← f (t + h / 2) (z + (h / 2) • k2) []
  let _k4 ← f (t + h) (z + h • k3) []
  return z + (h / 6) • (k1 + (2 : K) • k2 + (2 : K) • k3)

/-- The classic RK4 update exactly as the specification states it:
`z_next = z + (h/6)*(k1 + 2*k2 + 2*k3 + k4)`, with the same four stage
evaluations as the source. -/
def rk4_spec_update (f : K → V → List A → Except PyErr V) (t : K) (z : V)
    (h : K) : Except PyErr V := do
  let k1 ← f t z []
  let k2 ← f (t + h / 2) (z + (h / 2) • k1) []
  let k3 ← f (t + h / 2) (z + (h / 2) • k2) []
  let k4 ← f (t + h) (z + h • k3) []
  return z + (h / 6) • (k1 + (2 : K) • k2 + (2 : K) • k3 + k4)

end Steppers

/-- A simple rational right-hand side, `f(t, z) = z`, used to evaluate the
steppers on concrete inputs. -/
def qRHS : ℚ → ℚ → List ℚ → Except PyErr ℚ := fun _ z _ => .ok z

/-- C1: the claim states that `rk4` returns `z + (h/6)*(k1+2*k2+2*k3+k4)`.
Evaluating the embedded source at `f(t,z) = z`, `t = 0`, `z = 1`, `h = 6`:
the value the source binds to `znew` is `36` (the `k4` term is omitted from
the weighted sum; with `k4` it would be `115`), and the function then returns
`None` rather than the new state. -/
theorem C1_rk4_code_eval :
    rk4 qRHS 0 1 6 (.tuple []) = .ok none ∧
    rk4_znew qRHS 0 1 6 = .ok 36 ∧
    rk4_spec_update qRHS 0 1 6 = .ok 115 ∧
    rk4_znew qRHS 0 1 6 ≠ rk4_spec_update qRHS 0 1 6 := by
  have h36 : rk4_znew qRHS 0 1 6 = .ok 36 := by
    norm_num [rk4_znew, qRHS]
  have h115 : rk4_spec_update qRHS 0 1 6 = .ok 115 := by
    norm_num [rk4_spec_update, qRHS]
  refine ⟨rfl, h36, h115, ?_⟩
  intro hc
  rw [h36, h115] at hc
  exact absurd (Except.ok.inj hc) (by norm_num)

/-- C2: the claim states that `rk2` computes the midpoint state
`z_mid = z + (h/2)*k1` and returns `z + h*k2`, never dividing by the time
value.  Evaluating the embedded source at `f(t,z) = z`, `t = 1`, `z = 1`,
`h = 2`: the call raises `NameError` (the source evaluates the unbound name
`zp`), and the value bound to `z_p` is `1` — divided by `t + h/2 = 2` — while
the specification's midpoint `z + (h/2)*k1` is `2`. -/
theorem C2_rk2_code_eval :
    rk2 qRHS 1 1 2 (.tuple []) = .error .nameError ∧
    rk2_z_p qRHS 1 1 2 = .ok 1 ∧
    (1 : ℚ) + (2 / 2) * 1 = 2 ∧
    rk2_z_p qRHS 1 1 2 ≠ .ok ((1 : ℚ) + (2 / 2) * 1) := by
  have h1 : rk2_z_p qRHS 1 1 2 = .ok 1 := by
    norm_num [rk2_z_p, qRHS]
  refine ⟨rfl, h1, by norm_num, ?_⟩
  intro hc
  rw [h1] at hc
  exact absurd (Except.ok.inj hc) (by norm_num)

/-- C7: `fEuler` returns `z + h*f(t,z,*args)`: whenever the RHS evaluated at
`t`, `z` and the normalised extra arguments yields `d`, the step returns
`z + h • d`. -/
theorem C7_fEuler_step {K V A : Type} [Field K] [AddCommGroup V] [Module K V]
    (f : K → V → List A → Except PyErr V) (t : K) (z : V) (h : K)
    (args : ArgsVal A) (d : V) (hf : f t z args.normalize = .ok d) :
    fEuler f t z h args = .ok (z + h • d) := by
  simp only [fEuler, hf, except_ok_bind, except_pure_eq_ok]

/-- C7 witness: at `f(t,z) = z`, `t = 0`, `z = 3`, `h = 2` the Euler step
returns `3 + 2 • 3 = 9`. -/
theorem C7_fEuler_step_witness :
    fEuler qRHS 0 3 2 (.tuple []) = .ok ((3 : ℚ) + (2 : ℚ) • (3 : ℚ)) :=
  C7_fEuler_step qRHS 0 3 2 (.tuple []) 3 rfl

/-- C10: `fEuler` normalises a bare non-tuple `args` value into a one-element
tuple, so passing the bare value `x` gives the same result as passing the
tuple `(x,)` — the edge case the driver relies on when it passes the bare
scalar `m`. -/
theorem C10_fEuler_args_normalization {K V A : Type} [Field K] [AddCommGroup V]
    [Module K V] (f : K → V → List A → Except PyErr V) (t : K) (z : V) (h : K)
    (x : A) : fEuler f t z h (.bare x) = fEuler f t z h (.tuple [x]) := rfl

/-! ## Kepler dynamics and driver (src/kepler.py) -/

/-- A planar vector, as an ordered pair of reals. -/
abbrev Vec2 : Type := ℝ × ℝ

/-- A phase-space state `[x, y, vx, vy]`. -/
abbrev Vec4 : Type := ℝ × ℝ × ℝ × ℝ

/-- `numpy.linalg.norm` on a planar vector: the Euclidean length. -/
noncomputable def pynorm (x : Vec2) : ℝ := Real.sqrt (x.1 ^ 2 + x.2 ^ 2)

/-- `kinetic_energy` from src/kepler.py: `0.5*np.dot(v, v)`. -/
noncomputable def kinetic_energy (v : Vec2) : ℝ := 0.5 * (v.1 * v.1 + v.2 * v.2)

open Classical in
/-- `potential_energy` from src/kepler.py: `r = norm(x); return -m/r`.  The
division by a zero norm is the division-by-zero numeric error the
specification describes (an IEEE infinity with a warning for numpy scalars, a
raised `ZeroDivisionError` for plain floats); it is modelled as the error
outcome, never as a substituted finite value. -/
noncomputable def potential_energy (x : Vec2) (m : ℝ) : Except PyErr ℝ :=
  let r := pynorm x
  if r = 0 then .error .zeroDivisionError else .ok (-m / r)

/-- `total_energy` from src/kepler.py: splits `z` into position and velocity
slices and adds the kinetic and potential energies. -/
noncomputable def total_energy (z : Vec4) (m : ℝ) : Except PyErr ℝ := do
  let r : Vec2 := (z.1, z.2.1)
  let v : Vec2 := (z.2.2.1, z.2.2.2)
  let KE := kinetic_energy v
  let PE ← potential_energy r m
  return KE + PE

open Classical in
/-- `derivs` from src/kepler.py: splits `z` into `r` and `v`, computes the
acceleration `a = (-m/rabs**3)*r` and returns the concatenation `[v, a]`.
The time argument is accepted but unused.  Division by `rabs**3 = 0` is the
division-by-zero numeric error (numpy yields inf/NaN components with a
warning); it is modelled as the error outcome. -/
noncomputable def derivs (t : ℝ) (z : Vec4) (m : ℝ) : Except PyErr Vec4 :=
  let r : Vec2 := (z.1, z.2.1)
  let v : Vec2 := (z.2.2.1, z.2.2.2)
  let rabs := pynorm r
  if rabs = 0 then .error .zeroDivisionError
  else
    let a : Vec2 := (-m / rabs ^ 3 * r.1, -m / rabs ^ 3 * r.2)
    .ok (v.1, v.2, a.1, a.2)

/-- `derivs` as the driver hands it to a stepper: the stepper supplies the
extra-argument list, and applying `derivs` to a list that is not exactly
`[m]` is a Python arity `TypeError`. -/
noncomputable def derivsRHS : ℝ → Vec4 → List ℝ → Except PyErr Vec4 :=
  fun t z extra =>
    match extra with
    | [m] => derivs t z m
    | _ => .error .typeError

/-- The type of a stepper as the registry stores it; the `Option` in the
result distinguishes a returned state from Python's `None`. -/
def KStepper : Type :=
  (ℝ → Vec4 → List ℝ → Except PyErr Vec4) → ℝ → Vec4 → ℝ → ArgsVal ℝ →
    Except PyErr (Option Vec4)

/-- The `integration_methods` dict of src/kepler.py, as the lookup
`integration_methods[method]` performed by the driver: an unknown key raises
`KeyError`. -/
noncomputable def integration_methods (method : String) : Except PyErr KStepper :=
  if method = "Euler" then .ok fun f t z h args => (fEuler f t z h args).map some
  else if method = "RK2" then .ok fun f t z h args => (rk2 f t z h args).map some
  else if method = "RK4" then .ok fun f t z h args => rk4 f t z h args
  else .error .keyError

/-- One index of the driver's output: the values `integrate_orbit` stores
into `ts, Xs, Ys, KEs, PEs, TEs` at one step. -/
structure OrbitRow where
  t : ℝ
  x : ℝ
  y : ℝ
  ke : ℝ
  pe : ℝ
  te : ℝ

/-- The loop `for step in range(1, Nsteps)` of `integrate_orbit`: advance one
step, slice the new state, increment `t` by `h`, and record the stored values;
`n` is the number of remaining iterations.  A `None` returned by the stepper
makes the slice `z[0:2]` raise `TypeError`. -/
noncomputable def orbit_step (adv : KStepper) (m h : ℝ) :
    ℕ → ℝ → Vec4 → Except PyErr (List OrbitRow)
  | 0, _, _ => .ok []
  | n + 1, t, z => do
    let zopt ← adv derivsRHS t z h (.bare m)
    match zopt with
    | none => .error .typeError
    | some z' => do
      let r : Vec2 := (z'.1, z'.2.1)
      let v : Vec2 := (z'.2.2.1, z'.2.2.2)
      let t' := t + h
      let pe ← potential_energy r m
      let te ← total_energy z' m
      let rest ← orbit_step adv m h n t' z'
      return (⟨t', z'.1, z'.2.1, kinetic_energy v, pe, te⟩ : OrbitRow) :: rest

open Classical in
/-- Python `int()` truncation toward zero, applied to a real. -/
noncomputable def pyint (x : ℝ) : ℤ := if 0 ≤ x then ⌊x⌋ else ⌈x⌉

open Classical in
/-- `integrate_orbit` from src/kepler.py: computes `Nsteps = int(tend/h)+1`,
allocates the six output arrays (`np.zeros` of a negative length raises
`ValueError`; storing `ts[0]` into length-0 arrays raises `IndexError`),
stores the initial point and its energies, looks the stepper up by name, and
runs the loop.  The rows collect the six index-aligned sequences. -/
noncomputable def integrate_orbit (z0 : Vec4) (m tend h : ℝ) (method : String) :
    Except PyErr (List OrbitRow) :=
  let t : ℝ := 0
  let z := z0
  let r : Vec2 := (z.1, z.2.1)
  let v : Vec2 := (z.2.2.1, z.2.2.2)
  let Nsteps : ℤ := pyint (tend / h) + 1
  if Nsteps < 0 then .error .valueError
  else if Nsteps = 0 then .error .indexError
  else do
    let pe0 ← potential_energy r m
    let te0 ← total_energy z m
    let advance_one_step ← integration_methods method
    let rest ← orbit_step advance_one_step m h (Nsteps.toNat - 1) t z
    return (⟨t, z.1, z.2.1, kinetic_energy v, pe0, te0⟩ : OrbitRow) :: rest

open Classical in
/-- `set_initial_conditions` from src/kepler.py.  `-m/(2*a)` raises
`ZeroDivisionError` when `2*a = 0`; `abs(eps0)**(-3/2)` raises
`ZeroDivisionError` when `eps0 = 0`; `2*m/x0` raises `ZeroDivisionError` when
`x0 = 0`.  `np.sqrt` of a negative radicand yields NaN (with a warning), not
an exception; `Real.sqrt` maps negatives to `0`, and no claim below reads
`vy0` on a negative radicand. -/
noncomputable def set_initial_conditions (a m e : ℝ) :
    Except PyErr (Vec4 × ℝ × ℝ) :=
  if 2 * a = 0 then .error .zeroDivisionError
  else
    let eps0 := -m / (2 * a)
    if |eps0| = 0 then .error .zeroDivisionError
    else
      let Tperiod := Real.pi / Real.sqrt 2 * m * |eps0| ^ (-(3 : ℝ) / 2)
      let x0 := a * (1 + e)
      let y0 : ℝ := 0
      if x0 = 0 then .error .zeroDivisionError
      else
        let vx0 : ℝ := 0
        let vy0 := Real.sqrt (2 * eps0 + 2 * m / x0)
        .ok ((x0, y0, vx0, vy0), eps0, Tperiod)

/-- C9: `derivs` does not depend on its time argument: for every pair of
times, every state and every mass, the results coincide (the parameter is
accepted for interface uniformity only). -/
theorem C9_derivs_time_independent (t1 t2 : ℝ) (z : Vec4) (m : ℝ) :
    derivs t1 z m = derivs t2 z m := rfl

/-- C6: `potential_energy` signals the division-by-zero numeric error exactly
when the position norm is zero, and otherwise returns `-m/‖x‖`; it never
substitutes a finite value at a zero norm. -/
theorem C6_potential_energy_spec (x : Vec2) (m : ℝ) :
    (potential_energy x m = .error .zeroDivisionError ↔ pynorm x = 0) ∧
    (pynorm x ≠ 0 → potential_energy x m = .ok (-m / pynorm x)) := by
  unfold potential_energy
  by_cases hx : pynorm x = 0 <;> simp [hx]

/-- C6 witness: at `x = (1, 0)` (norm `1`) and `m = 2` the call succeeds and
returns `-2/1`. -/
theorem C6_potential_energy_spec_witness :
    potential_energy (1, 0) 2 = .ok (-2 / pynorm (1, 0)) :=
  (C6_potential_energy_spec (1, 0) 2).2 (by
    unfold pynorm
    norm_num)

/-- Evaluation of `set_initial_conditions` away from its three
division-by-zero hazards. -/
lemma sic_eval (a m e : ℝ) (h2a : 2 * a ≠ 0) (hm : m ≠ 0)
    (hx0 : a * (1 + e) ≠ 0) :
    set_initial_conditions a m e =
      .ok ((a * (1 + e), 0, 0,
          Real.sqrt (2 * (-m / (2 * a)) + 2 * m / (a * (1 + e)))),
        -m / (2 * a),
        Real.pi / Real.sqrt 2 * m * |-m / (2 * a)| ^ (-(3 : ℝ) / 2)) := by
  have heps : -m / (2 * a) ≠ 0 := div_ne_zero (neg_ne_zero.mpr hm) h2a
  unfold set_initial_conditions
  rw [if_neg h2a]
  simp only [if_neg (abs_ne_zero.mpr heps), if_neg hx0]

/-- The period expression at `a = 1`, `m = 1`: `π/√2 · |−1/2|^(−3/2) = 2π`. -/
lemma tperiod_unit :
    Real.pi / Real.sqrt 2 * 1 * |(-1 : ℝ) / (2 * 1)| ^ (-(3 : ℝ) / 2) =
      2 * Real.pi := by
  have habs : |(-1 : ℝ) / (2 * 1)| = 2⁻¹ := by norm_num
  rw [habs]
  have h2 : ((2 : ℝ)⁻¹) ^ (-(3 : ℝ) / 2) = 2 ^ ((3 : ℝ) / 2) := by
    rw [Real.inv_rpow (by norm_num : (0 : ℝ) ≤ 2)]
    rw [show (-(3 : ℝ) / 2) = -((3 : ℝ) / 2) by norm_num]
    rw [Real.rpow_neg (by norm_num : (0 : ℝ) ≤ 2), inv_inv]
  rw [h2]
  have h32 : (2 : ℝ) ^ ((3 : ℝ) / 2) = 2 * Real.sqrt 2 := by
    rw [show ((3 : ℝ) / 2) = 1 + 1 / 2 by norm_num]
    rw [Real.rpow_add (by norm_num : (0 : ℝ) < 2), Real.rpow_one,
      ← Real.sqrt_eq_rpow]
  rw [h32]
  have hs : Real.sqrt 2 ≠ 0 := by positivity
  field_simp
  ring

/-- C3 counterexample: at `(a, m, e) = (1, 1, 1)` — violating `0 ≤ e < 1` —
`set_initial_conditions` returns normally with `z0 = (2, 0, 0, 0)`,
`eps0 = -1/2` and `Tperiod = 2π`, instead of signalling a configuration
error. -/
theorem C3_counterexample :
    set_initial_conditions 1 1 1 =
      .ok ((2, 0, 0, 0), -(1 / 2 : ℝ), 2 * Real.pi) := by
  have h' := sic_eval 1 1 1 (by norm_num) (by norm_num) (by norm_num)
  rw [h']
  have hvy : Real.sqrt (2 * (-1 / (2 * 1)) + 2 * 1 / (1 * (1 + 1))) = 0 := by
    rw [show (2 * ((-1 : ℝ) / (2 * 1)) + 2 * 1 / (1 * (1 + 1))) = 0 by norm_num,
      Real.sqrt_zero]
  rw [hvy, tperiod_unit]
  norm_num

/-- C3 amended: `set_initial_conditions` performs no argument validation.
For every `a`, `m`, `e` with `2a ≠ 0`, `m ≠ 0` and `a(1+e) ≠ 0` — including
every eccentricity `e ≥ 1` — the call silently returns a value (for `e > 1`
the returned `vy0` is the NaN of a square root of a negative radicand); no
configuration error is signalled. -/
theorem C3_no_validation (a m e : ℝ) (h2a : 2 * a ≠ 0) (hm : m ≠ 0)
    (hx0 : a * (1 + e) ≠ 0) :
    ∃ v, set_initial_conditions a m e = .ok v :=
  ⟨_, sic_eval a m e h2a hm hx0⟩

/-- C3 amended witness: at `(a, m, e) = (1, 1, 3)` (so `e ≥ 1`) the call
returns a value. -/
theorem C3_no_validation_witness :
    ∃ v, set_initial_conditions 1 1 3 = .ok v :=
  C3_no_validation 1 1 3 (by norm_num) (by norm_num) (by norm_num)

/-- C5: `set_initial_conditions` computes `eps0 = -m/(2a)` and
`Tperiod = (π/√2)·m·|eps0|^(-3/2)`, and in particular at
`a = 1, m = 1, e = 0` it returns `z0 = (1, 0, 0, 1)`, `eps0 = -1/2` and
`Tperiod = 2π`. -/
theorem C5_set_initial_conditions_values :
    (∀ a m e : ℝ, 2 * a ≠ 0 → m ≠ 0 → a * (1 + e) ≠ 0 →
      ∃ z0 : Vec4, set_initial_conditions a m e =
        .ok (z0, -m / (2 * a),
          Real.pi / Real.sqrt 2 * m * |-m / (2 * a)| ^ (-(3 : ℝ) / 2))) ∧
    set_initial_conditions 1 1 0 =
      .ok ((1, 0, 0, 1), -(1 / 2 : ℝ), 2 * Real.pi) := by
  constructor
  · intro a m e h2a hm hx0
    exact ⟨_, sic_eval a m e h2a hm hx0⟩
  · have h := sic_eval 1 1 0 (by norm_num) (by norm_num) (by norm_num)
    rw [h]
    have hvy : Real.sqrt (2 * (-1 / (2 * 1)) + 2 * 1 / (1 * (1 + 0))) = 1 := by
      rw [show (2 * ((-1 : ℝ) / (2 * 1)) + 2 * 1 / (1 * (1 + 0))) = 1 by
        norm_num, Real.sqrt_one]
    rw [hvy, tperiod_unit]
    norm_num

/-- C5 witness: the universally quantified part, applied at
`a = 2, m = 3, e = 0`. -/
theorem C5_set_initial_conditions_values_witness :
    ∃ z0 : Vec4, set_initial_conditions 2 3 0 =
      .ok (z0, -3 / (2 * 2),
        Real.pi / Real.sqrt 2 * 3 * |-3 / (2 * 2)| ^ (-(3 : ℝ) / 2)) :=
  C5_set_initial_conditions_values.1 2 3 0 (by norm_num) (by norm_num)
    (by norm_num)

/-- Destructuring a successful run of the driver loop: `n` iterations produce
exactly `n` rows, and the stored time advances from `t` by exactly `h` at
every step. -/
lemma orbit_step_ok (adv : KStepper) (m h : ℝ) :
    ∀ (n : ℕ) (t : ℝ) (z : Vec4) (rows : List OrbitRow),
      orbit_step adv m h n t z = .ok rows →
      rows.length = n ∧
        ∀ i (hi : i < rows.length),
          (rows.get ⟨i, hi⟩).t = t + ((i : ℝ) + 1) * h := by
  intro n
  induction n with
  | zero =>
    intro t z rows hrows
    simp only [orbit_step, Except.ok.injEq] at hrows
    subst hrows
    exact ⟨rfl, fun i hi => absurd hi (by simp)⟩
  | succ n ih =>
    intro t z rows hrows
    rw [orbit_step] at hrows
    cases hadv : adv derivsRHS t z h (.bare m) with
    | error e => rw [hadv] at hrows; simp at hrows
    | ok zopt =>
      rw [hadv] at hrows
      simp only [except_ok_bind] at hrows
      cases zopt with
      | none => simp at hrows
      | some z' =>
        dsimp only at hrows
        cases hpe : potential_energy (z'.1, z'.2.1) m with
        | error e => rw [hpe] at hrows; simp at hrows
        | ok pe =>
          rw [hpe] at hrows
          simp only [except_ok_bind] at hrows
          cases hte : total_energy z' m with
          | error e => rw [hte] at hrows; simp at hrows
          | ok te =>
            rw [hte] at hrows
            simp only [except_ok_bind] at hrows
            cases hrest : orbit_step adv m h n (t + h) z' with
            | error e => rw [hrest] at hrows; simp at hrows
            | ok rows' =>
              rw [hrest] at hrows
              simp only [except_ok_bind, except_pure_eq_ok,
                Except.ok.injEq] at hrows
              subst hrows
              obtain ⟨hlen, htimes⟩ := ih (t + h) z' rows' hrest
              refine ⟨by simp [hlen], ?_⟩
              intro i hi
              cases i with
              | zero =>
                simp only [List.get]
                push_cast
                ring
              | succ i =>
                have hi' : i < rows'.length := by
                  simpa using Nat.lt_of_succ_lt_succ (by simpa using hi)
                have ht := htimes i hi'
                simp only [List.get]
                rw [show rows'.get ⟨i, hi'⟩ = rows'.get ⟨i, hi'⟩ from rfl] at ht
                rw [ht]
                push_cast
                ring

/-- Destructuring a successful `integrate_orbit` call with positive `tend`
and `h`: the output is the initial row followed by `⌊tend/h⌋` loop rows whose
times advance by `h` each step. -/
lemma integrate_orbit_ok (z0 : Vec4) (m tend h : ℝ) (method : String)
    (out : List OrbitRow) (htend : 0 < tend) (hh : 0 < h)
    (hok : integrate_orbit z0 m tend h method = .ok out) :
    ∃ pe0 te0 rest,
      potential_energy (z0.1, z0.2.1) m = .ok pe0 ∧
      total_energy z0 m = .ok te0 ∧
      out = (⟨0, z0.1, z0.2.1, kinetic_energy (z0.2.2.1, z0.2.2.2), pe0, te0⟩ :
          OrbitRow) :: rest ∧
      rest.length = (⌊tend / h⌋).toNat ∧
      ∀ i (hi : i < rest.length),
        (rest.get ⟨i, hi⟩).t = 0 + ((i : ℝ) + 1) * h := by
  have hq : (0 : ℝ) ≤ tend / h := div_nonneg htend.le hh.le
  have hpy : pyint (tend / h) = ⌊tend / h⌋ := by unfold pyint; rw [if_pos hq]
  have hfl : 0 ≤ ⌊tend / h⌋ := Int.floor_nonneg.mpr hq
  have hc1 : ¬(⌊tend / h⌋ + 1 < 0) := by omega
  have hc2 : ¬(⌊tend / h⌋ + 1 = 0) := by omega
  simp only [integrate_orbit, hpy] at hok
  rw [if_neg hc1, if_neg hc2] at hok
  cases hpe : potential_energy (z0.1, z0.2.1) m with
  | error e => rw [hpe] at hok; simp at hok
  | ok pe0 =>
    rw [hpe] at hok
    simp only [except_ok_bind] at hok
    cases hte : total_energy z0 m with
    | error e => rw [hte] at hok; simp at hok
    | ok te0 =>
      rw [hte] at hok
      simp only [except_ok_bind] at hok
      cases hadv : integration_methods method with
      | error e => rw [hadv] at hok; simp at hok
      | ok adv =>
        rw [hadv] at hok
        simp only [except_ok_bind] at hok
        cases hrest : orbit_step adv m h ((⌊tend / h⌋ + 1).toNat - 1) 0 z0 with
        | error e => rw [hrest] at hok; simp at hok
        | ok rest =>
          rw [hrest] at hok
          simp only [except_ok_bind, except_pure_eq_ok,
            Except.ok.injEq] at hok
          obtain ⟨hlen, htimes⟩ := orbit_step_ok adv m h _ 0 z0 rest hrest
          exact ⟨pe0, te0, rest, rfl, rfl, hok.symm, by omega, htimes⟩

/-- C4: every successful `integrate_orbit` call with positive `tend` and `h`
returns six index-aligned sequences of length `⌊tend/h⌋ + 1` whose index 0
holds the initial time `0`, the initial position components and the energies
computed from `z0`. -/
theorem C4_integrate_orbit_shape (z0 : Vec4) (m tend h : ℝ) (method : String)
    (out : List OrbitRow) (htend : 0 < tend) (hh : 0 < h)
    (hok : integrate_orbit z0 m tend h method = .ok out) :
    ((out.map OrbitRow.t).length = (⌊tend / h⌋).toNat + 1 ∧
     (out.map OrbitRow.x).length = (⌊tend / h⌋).toNat + 1 ∧
     (out.map OrbitRow.y).length = (⌊tend / h⌋).toNat + 1 ∧
     (out.map OrbitRow.ke).length = (⌊tend / h⌋).toNat + 1 ∧
     (out.map OrbitRow.pe).length = (⌊tend / h⌋).toNat + 1 ∧
     (out.map OrbitRow.te).length = (⌊tend / h⌋).toNat + 1) ∧
    ((out.map OrbitRow.t).head? = some 0 ∧
     (out.map OrbitRow.x).head? = some z0.1 ∧
     (out.map OrbitRow.y).head? = some z0.2.1 ∧
     (out.map OrbitRow.ke).head? = some (kinetic_energy (z0.2.2.1, z0.2.2.2)) ∧
     (∃ pe0, potential_energy (z0.1, z0.2.1) m = .ok pe0 ∧
        (out.map OrbitRow.pe).head? = some pe0) ∧
     (∃ te0, total_energy z0 m = .ok te0 ∧
        (out.map OrbitRow.te).head? = some te0)) := by
  obtain ⟨pe0, te0, rest, hpe, hte, hout, hlen, -⟩ :=
    integrate_orbit_ok z0 m tend h method out htend hh hok
  subst hout
  constructor
  · refine ⟨?_, ?_, ?_, ?_, ?_, ?_⟩ <;> simp [hlen]
  · exact ⟨by simp, by simp, by simp, by simp, ⟨pe0, ⟨hpe, by simp⟩⟩,
      ⟨te0, ⟨hte, by simp⟩⟩⟩

/-- C8: in the exact arithmetic of the embedding, every successful
`integrate_orbit` call with positive `tend` and `h` stores `ts[i] = i*h` for
every index, even though the implementation accumulates `t` by repeated
addition of `h`. -/
theorem C8_times_exact (z0 : Vec4) (m tend h : ℝ) (method : String)
    (out : List OrbitRow) (htend : 0 < tend) (hh : 0 < h)
    (hok : integrate_orbit z0 m tend h method = .ok out) :
    ∀ i (hi : i < out.length), (out.get ⟨i, hi⟩).t = (i : ℝ) * h := by
  obtain ⟨pe0, te0, rest, hpe, hte, hout, hlen, htimes⟩ :=
    integrate_orbit_ok z0 m tend h method out htend hh hok
  subst hout
  intro i hi
  cases i with
  | zero => simp
  | succ i =>
    have hi' : i < rest.length := by simpa using Nat.lt_of_succ_lt_succ hi
    have ht := htimes i hi'
    simp only [List.get]
    rw [ht]
    push_cast
    ring

/-- The norm of the unit-x position. -/
lemma pynorm_unit : pynorm ((1 : ℝ), 0) = 1 := by
  unfold pynorm
  norm_num

/-- `potential_energy` at the unit-x position with `m = 1`. -/
lemma potential_energy_unit : potential_energy ((1 : ℝ), 0) 1 = .ok (-1) := by
  simp only [potential_energy, pynorm_unit]
  norm_num

/-- `total_energy` at the circular initial state with `m = 1`. -/
lemma total_energy_unit :
    total_energy ((1 : ℝ), 0, 0, 1) 1 = .ok (-(1 / 2)) := by
  simp only [total_energy]
  norm_num [potential_energy_unit, kinetic_energy]

/-- `int(tend/h)` for `tend = 1`, `h = 2`. -/
lemma pyint_half : pyint ((1 : ℝ) / 2) = 0 := by
  unfold pyint
  rw [if_pos (by norm_num : (0 : ℝ) ≤ 1 / 2)]
  rw [Int.floor_eq_zero_iff]
  constructor <;> norm_num

/-- Looking up the RK4 stepper in the registry. -/
lemma integration_methods_rk4 :
    integration_methods "RK4" = .ok fun f t z h args => rk4 f t z h args := rfl

/-- Looking up the Euler stepper in the registry. -/
lemma integration_methods_euler :
    integration_methods "Euler" =
      .ok fun f t z h args => (fEuler f t z h args).map some := rfl

/-- A one-row (`Nsteps = 1`) run with the RK4 stepper: `tend < h`, so the
loop body never executes and the call succeeds. -/
lemma integrate_orbit_eval_rk4 :
    integrate_orbit ((1 : ℝ), 0, 0, 1) 1 1 2 "RK4" =
      .ok [⟨0, 1, 0, 1 / 2, -1, -(1 / 2)⟩] := by
  simp only [integrate_orbit, pyint_half]
  norm_num [potential_energy_unit, total_energy_unit, integration_methods_rk4,
    orbit_step, kinetic_energy]

/-- C4 witness: the shape property at the concrete successful call
`integrate_orbit((1,0,0,1), 1, 1, 2, "RK4")`, whose output is the single
initial row. -/
theorem C4_integrate_orbit_shape_witness :
    ((([(⟨0, 1, 0, 1 / 2, -1, -(1 / 2)⟩ : OrbitRow)].map OrbitRow.t).length =
        (⌊(1 : ℝ) / 2⌋).toNat + 1 ∧
      ([(⟨0, 1, 0, 1 / 2, -1, -(1 / 2)⟩ : OrbitRow)].map OrbitRow.x).length =
        (⌊(1 : ℝ) / 2⌋).toNat + 1 ∧
      ([(⟨0, 1, 0, 1 / 2, -1, -(1 / 2)⟩ : OrbitRow)].map OrbitRow.y).length =
        (⌊(1 : ℝ) / 2⌋).toNat + 1 ∧
      ([(⟨0, 1, 0, 1 / 2, -1, -(1 / 2)⟩ : OrbitRow)].map OrbitRow.ke).length =
        (⌊(1 : ℝ) / 2⌋).toNat + 1 ∧
      ([(⟨0, 1, 0, 1 / 2, -1, -(1 / 2)⟩ : OrbitRow)].map OrbitRow.pe).length =
        (⌊(1 : ℝ) / 2⌋).toNat + 1 ∧
      ([(⟨0, 1, 0, 1 / 2, -1, -(1 / 2)⟩ : OrbitRow)].map OrbitRow.te).length =
        (⌊(1 : ℝ) / 2⌋).toNat + 1) ∧
     (([(⟨0, 1, 0, 1 / 2, -1, -(1 / 2)⟩ : OrbitRow)].map OrbitRow.t).head? =
        some 0 ∧
      ([(⟨0, 1, 0, 1 / 2, -1, -(1 / 2)⟩ : OrbitRow)].map OrbitRow.x).head? =
        some 1 ∧
      ([(⟨0, 1, 0, 1 / 2, -1, -(1 / 2)⟩ : OrbitRow)].map OrbitRow.y).head? =
        some 0 ∧
      ([(⟨0, 1, 0, 1 / 2, -1, -(1 / 2)⟩ : OrbitRow)].map OrbitRow.ke).head? =
        some (kinetic_energy (0, 1)) ∧
      (∃ pe0, potential_energy ((1 : ℝ), 0) 1 = .ok pe0 ∧
        ([(⟨0, 1, 0, 1 / 2, -1, -(1 / 2)⟩ : OrbitRow)].map OrbitRow.pe).head? =
          some pe0) ∧
      (∃ te0, total_energy ((1 : ℝ), 0, 0, 1) 1 = .ok te0 ∧
        ([(⟨0, 1, 0, 1 / 2, -1, -(1 / 2)⟩ : OrbitRow)].map OrbitRow.te).head? =
          some te0))) :=
  C4_integrate_orbit_shape ((1 : ℝ), 0, 0, 1) 1 1 2 "RK4" _ (by norm_num)
    (by norm_num) integrate_orbit_eval_rk4

/-- The norm of the position `(1, 1)` reached after one Euler step. -/
lemma pynorm_one_one : pynorm ((1 : ℝ), 1) = Real.sqrt 2 := by
  unfold pynorm
  norm_num

/-- `potential_energy` at the position `(1, 1)` with `m = 1`. -/
lemma potential_energy_one_one :
    potential_energy ((1 : ℝ), 1) 1 = .ok (-(Real.sqrt 2)⁻¹) := by
  simp only [potential_energy, pynorm_one_one]
  rw [if_neg (by positivity : ¬Real.sqrt 2 = 0)]
  rw [neg_div, one_div]

/-- `total_energy` at the state reached after one Euler step from the
circular initial state. -/
lemma total_energy_after_step :
    total_energy ((1 : ℝ), 1, -1, 1) 1 = .ok (1 - (Real.sqrt 2)⁻¹) := by
  simp only [total_energy, potential_energy_one_one, except_ok_bind,
    except_pure_eq_ok, Except.ok.injEq, kinetic_energy]
  ring

/-- `derivs` at the circular initial state. -/
lemma derivs_unit : derivs 0 ((1 : ℝ), 0, 0, 1) 1 = .ok (0, 1, -1, 0) := by
  simp [derivs, pynorm_unit]

/-- One Euler step of size `1` from the circular initial state. -/
lemma euler_step_unit :
    fEuler derivsRHS 0 ((1 : ℝ), 0, 0, 1) 1 (.bare 1) = .ok (1, 1, -1, 1) := by
  simp only [fEuler, ArgsVal.normalize]
  rw [show derivsRHS 0 ((1 : ℝ), 0, 0, 1) [1] = .ok (0, 1, -1, 0) from by
    simp [derivsRHS, derivs_unit]]
  simp [Prod.mk_add_mk]

/-- `int(tend/h)` for `tend = 1`, `h = 1`. -/
lemma pyint_one : pyint ((1 : ℝ) / 1) = 1 := by
  unfold pyint
  rw [if_pos (by norm_num : (0 : ℝ) ≤ 1 / 1)]
  norm_num

/-- A two-row (`Nsteps = 2`) Euler run: the loop executes once, advancing the
accumulated time from `0` to `1`. -/
lemma integrate_orbit_eval_euler2 :
    integrate_orbit ((1 : ℝ), 0, 0, 1) 1 1 1 "Euler" =
      .ok [⟨0, 1, 0, 1 / 2, -1, -(1 / 2)⟩,
        ⟨1, 1, 1, 1, -(Real.sqrt 2)⁻¹, 1 - (Real.sqrt 2)⁻¹⟩] := by
  simp only [integrate_orbit, pyint_one]
  norm_num [potential_energy_unit, total_energy_unit, integration_methods_euler,
    orbit_step, euler_step_unit, potential_energy_one_one,
    total_energy_after_step, kinetic_energy, Except.map, -Prod.mk_one_one]

/-- C8 witness: the exact-times property at the concrete successful two-row
call `integrate_orbit((1,0,0,1), 1, 1, 1, "Euler")`, instantiated at the
stored index `1`. -/
theorem C8_times_exact_witness :
    ((([⟨0, 1, 0, 1 / 2, -1, -(1 / 2)⟩,
        ⟨1, 1, 1, 1, -(Real.sqrt 2)⁻¹, 1 - (Real.sqrt 2)⁻¹⟩] :
      List OrbitRow)).get ⟨1, by norm_num⟩).t = ((1 : ℕ) : ℝ) * 1 :=
  C8_times_exact ((1 : ℝ), 0, 0, 1) 1 1 1 "Euler" _ (by norm_num)
    (by norm_num) integrate_orbit_eval_euler2 1 (by norm_num)
